import Mathlib

/-!
# Verification of the bird-observation dashboard pipeline

Shallow embedding of the data-shaping pipeline of the repository
(`src/project.py` and `src/main.py`): raw JSON observation records,
the fetch wrappers, the per-species series construction of
`display_line_plot`, the (date, species) aggregation of
`display_bar_graph`, the column projection of `display_table`,
the CSV export of `main.py`'s table tab, and the zoom-level session
state of `display_map`.

Raw records are association lists of string keys to JSON-like values,
mirroring the untyped dicts decoded from the API response.  Python's
`obs[k]` (which raises `KeyError` when `k` is absent) is embedded as an
`Option`-valued lookup, and any computation that can raise is embedded
in the `Option` monad, `none` marking an uncaught exception.
`obs.get(k, d)` is embedded as a total lookup with default.
-/

namespace Bird

/-- A JSON-like value stored in a raw observation record. -/
inductive Val where
  | str (s : String)
  | int (n : Int)
  | bool (b : Bool)
deriving DecidableEq, Repr

/-- A raw observation record: an untyped key/value map, as decoded from the
API's JSON array.  Keys are unique in records that come from JSON objects;
lookup takes the first binding, matching Python dict semantics. -/
abbrev Raw := List (String × Val)

/-- Python `obs[k]`: `none` models an uncaught `KeyError`. -/
def Raw.get (r : Raw) (k : String) : Option Val :=
  (r.find? (fun p => p.1 == k)).map (fun p => p.2)

/-- Python `k in obs`. -/
def Raw.hasKey (r : Raw) (k : String) : Bool :=
  (r.find? (fun p => p.1 == k)).isSome

/-- Python `obs.get("howMany", 0)` as used by `display_line_plot`
and `display_bar_graph`: absent (or non-integer) population collapses
to 0. -/
def Raw.howManyD (r : Raw) : Int :=
  match r.get "howMany" with
  | some (Val.int n) => n
  | _ => 0

/-- Python `obs["comName"] in sel` for a list of species names:
`none` models the `KeyError` on a record with no `comName` key;
a non-string `comName` value compares unequal to every name. -/
def comNameIn (sel : List String) (r : Raw) : Option Bool :=
  (r.get "comName").map (fun v =>
    match v with
    | Val.str s => sel.contains s
    | _ => false)

/-- Python `obs["comName"] == species`. -/
def comNameEq (species : String) (r : Raw) : Option Bool :=
  (r.get "comName").map (fun v => v == Val.str species)

/-- Python list comprehension `[x for x in l if p(x)]` where the predicate
itself may raise: `none` propagates the exception. -/
def filterExc (p : Raw → Option Bool) : List Raw → Option (List Raw)
  | [] => some []
  | r :: rs => do
      let b ← p r
      let rest ← filterExc p rs
      pure (if b then r :: rest else rest)

/-- Python list comprehension `[f(x) for x in l]` where the body may
raise: `none` propagates the exception. -/
def mapExc (f : α → Option β) : List α → Option (List β)
  | [] => some []
  | x :: xs => do
      let y ← f x
      let ys ← mapExc f xs
      pure (y :: ys)

/-! ## Date parsing

`pd.to_datetime` applied to eBird's `obsDt` strings (`"YYYY-MM-DD"`,
optionally followed by `" HH:MM"`).  A parsed timestamp is embedded as a
natural number whose order agrees with chronological order; an
unparseable string gives `none` (the exception `pd.to_datetime` raises). -/

/-- Split a character list on a separator character (the string split
underlying `"YYYY-MM-DD".split("-")` and friends). -/
def splitOnChar (c : Char) : List Char → List (List Char)
  | [] => [[]]
  | x :: xs =>
      match splitOnChar c xs with
      | [] => [[]]
      | g :: gs => if x = c then [] :: g :: gs else (x :: g) :: gs

/-- Read a non-empty all-digit character list as a natural number. -/
def digitsToNat (l : List Char) : Option Nat :=
  if !l.isEmpty && l.all (fun c => c.isDigit) then
    some (l.foldl (fun n c => n * 10 + (c.toNat - 48)) 0)
  else
    none

/-- Parse `"YYYY-MM-DD"` into `y*10000 + m*100 + d`, validating the
month and day ranges. -/
def parseYMD (s : List Char) : Option Nat :=
  match splitOnChar '-' s with
  | [ys, ms, ds] => do
      let y ← digitsToNat ys
      let m ← digitsToNat ms
      let d ← digitsToNat ds
      if 1 ≤ m ∧ m ≤ 12 ∧ 1 ≤ d ∧ d ≤ 31 then
        pure (y * 10000 + m * 100 + d)
      else
        none
  | _ => none

/-- Parse `"HH:MM"` into `h*100 + min`. -/
def parseHM (s : List Char) : Option Nat :=
  match splitOnChar ':' s with
  | [hs, ms] => do
      let h ← digitsToNat hs
      let m ← digitsToNat ms
      if h ≤ 23 ∧ m ≤ 59 then pure (h * 100 + m) else none
  | _ => none

/-- Full timestamp: date part scaled so that the optional time part
refines the chronological order within a day. -/
def parseDate (s : String) : Option Nat :=
  match splitOnChar ' ' s.toList with
  | [d] => (parseYMD d).map (· * 10000)
  | [d, t] => do
      let dd ← parseYMD d
      let tt ← parseHM t
      pure (dd * 10000 + tt)
  | _ => none

/-- Python `obs["obsDt"]` followed by `pd.to_datetime`: `none` models
either the `KeyError` on a missing key or the parse exception. -/
def Raw.obsDate (r : Raw) : Option Nat := do
  match ← r.get "obsDt" with
  | Val.str s => parseDate s
  | _ => none

/-! ## Fetch wrappers (`observed_US`, `observed_US_cached`,
`fetch_notable_observations`)

All three share the same response handling; the notable variant differs
only in URL and query parameters, which do not affect it.  The HTTP
exchange itself is external; its outcome is embedded as a status code
plus the result of attempting to JSON-decode the body into a record
array (`none` = `response.json()` raised `ValueError`). -/

/-- Outcome of the external HTTP request. -/
structure HttpResponse where
  status : Nat
  decoded : Option (List Raw)

/-- What the fetch wrapper produces for the render cycle: the record
set handed downstream, and whether `st.error` was shown. -/
structure FetchResult where
  records : List Raw
  errored : Bool
deriving DecidableEq, Repr

/-- `observed_US` / `observed_US_cached` / `fetch_notable_observations`
response handling: 200 with decodable body returns the records,
anything else reports an error and returns `[]`. -/
def observed_US (resp : HttpResponse) : FetchResult :=
  if resp.status = 200 then
    match resp.decoded with
    | some rs => ⟨rs, false⟩
    | none => ⟨[], true⟩
  else
    ⟨[], true⟩

/-! ## `display_line_plot` (project.py, lines 174–207)

Builds `combined_data` — one row `{species, date, population}` per
observation, looping over the selected species in order and over the
filtered records in order — then sorts the whole frame by date and
plots, per species, the rows whose `species` column matches.

`df.sort_values(by="date")` uses pandas' default `kind='quicksort'`,
which is documented as not stable: the program guarantees only that the
plotted frame is some permutation of `combined_data` that is
non-decreasing in the date key, with the order among equal dates
unspecified.  The executable embedding instantiates the sort with
`List.insertionSort`, which is one admissible outcome; theorems about
the plotted series must not rely on this instantiation's tie order, and
the series theorem quantifies over every date-sorted permutation of
`combined_data`. -/

/-- One row of `combined_data`. -/
structure Entry where
  species : String
  date : Nat
  population : Int
deriving DecidableEq, Repr

/-- One `combined_data.append({...})` step: `none` models the
`KeyError` or `pd.to_datetime` exception on a bad `obsDt`. -/
def mkEntry (species : String) (r : Raw) : Option Entry := do
  let d ← r.obsDate
  pure ⟨species, d, r.howManyD⟩

/-- The inner loop of `display_line_plot` for one selected species:
rows of `combined_data` contributed by records whose `comName` equals
that species. -/
def speciesEntries (data : List Raw) (species : String) : Option (List Entry) := do
  let filt ← filterExc (comNameEq species) data
  mapExc (mkEntry species) filt

/-- `combined_data`: the species-selection filter followed by the double
loop over selected species and their records. -/
def combinedData (records : List Raw) (sel : List String) : Option (List Entry) := do
  let data ← filterExc (comNameIn sel) records
  let groups ← mapExc (speciesEntries data) sel
  pure groups.flatten

/-- Comparison used to sort `combined_data` by the `date` column. -/
def dateLE (a b : Entry) : Prop := a.date ≤ b.date

instance : DecidableRel dateLE := fun a b => Nat.decLe a.date b.date

instance : IsTotal Entry dateLE := ⟨fun a b => Nat.le_total a.date b.date⟩

instance : IsTrans Entry dateLE := ⟨fun _ _ _ h h' => Nat.le_trans h h'⟩

/-- What `display_line_plot` does with a record set and a species
selection. -/
inductive PlotOutcome where
  | exc                        -- an uncaught exception (KeyError / parse error)
  | noData                     -- st.error "No data available for species: ..."
  | plot (entries : List Entry)  -- the sorted combined frame that is plotted
deriving DecidableEq, Repr

/-- `display_line_plot`: filter to the selected species, bail out with a
user-visible message when nothing matched, otherwise build
`combined_data` and sort it by date. -/
def displayLinePlot (records : List Raw) (sel : List String) : PlotOutcome :=
  match filterExc (comNameIn sel) records with
  | none => PlotOutcome.exc
  | some data =>
      if data.isEmpty then PlotOutcome.noData
      else
        match combinedData records sel with
        | none => PlotOutcome.exc
        | some entries => PlotOutcome.plot (entries.insertionSort dateLE)

/-- The (date, population) series plotted for one species: the rows of
the sorted frame whose `species` column matches
(`df[df["species"] == species]`). -/
def seriesOf (entries : List Entry) (species : String) : List (Nat × Int) :=
  (entries.filter (fun e => e.species == species)).map (fun e => (e.date, e.population))

/-! ## `main.py` line-plot tab (lines 150–162)

No sorting: dates and populations are list comprehensions over the
fetched records in input order, and `obs["howMany"]` is indexed
unguarded (`KeyError` when absent). -/

/-- `[obs["obsDt"] for obs in species_dict if obs["comName"] == s]`
paired with `[obs["howMany"] for obs in species_dict if ...]`:
the plotted (date, population) points in raw input order.  `none`
models a `KeyError` on a missing `comName`/`obsDt`/`howMany` or an
unparseable date. -/
def mainLineSeries (records : List Raw) (species : String) : Option (List (Nat × Val)) :=
  match records with
  | [] => some []
  | r :: rs => do
      let b ← comNameEq species r
      if b then
        let d ← r.obsDate
        let p ← r.get "howMany"
        let rest ← mainLineSeries rs species
        pure ((d, p) :: rest)
      else
        mainLineSeries rs species

/-- `species_list = [i["comName"] for i in species_dict]` in `main.py`
(line 59): unguarded indexing, `none` models the `KeyError`. -/
def speciesListMain (records : List Raw) : Option (List Val) :=
  mapExc (fun r => r.get "comName") records

/-! ## `display_bar_graph` (project.py, lines 210–257)

Same filter and double loop as the line plot, producing parallel lists
of dates, populations and species, then
`df.groupby(["date", "species"]).sum()`. -/

/-- The rows of the bar-graph frame, in construction order. -/
def barRows (records : List Raw) (sel : List String) : Option (List Entry) :=
  combinedData records sel

/-- `groupby(["date", "species"]).sum()`: fold the rows into an
association list keyed by (date, species), summing populations within a
group; a fresh key is appended. -/
def insertAgg (acc : List ((Nat × String) × Int)) (key : Nat × String) (v : Int) :
    List ((Nat × String) × Int) :=
  match acc with
  | [] => [(key, v)]
  | (k, s) :: rest =>
      if k = key then (k, s + v) :: rest else (k, s) :: insertAgg rest key v

/-- The grouped aggregate of a list of rows. -/
def aggregate (rows : List Entry) : List ((Nat × String) × Int) :=
  rows.foldl (fun acc e => insertAgg acc (e.date, e.species) e.population) []

/-- Look up the summed population for one (date, species) key. -/
def aggLookup (agg : List ((Nat × String) × Int)) (key : Nat × String) : Int :=
  match agg.find? (fun p => p.1 = key) with
  | some p => p.2
  | none => 0

/-- Total population over all keys of the aggregate. -/
def aggTotal (agg : List ((Nat × String) × Int)) : Int :=
  (agg.map (fun p => p.2)).sum

/-- Total population over a list of rows. -/
def rowsTotal (rows : List Entry) : Int :=
  (rows.map (fun e => e.population)).sum

/-! ## `display_table` (project.py, lines 260–326)

The "Specific Data" branch: filter to the selected species, build a
DataFrame, optionally filter again by the inner species multiselect,
compute which mapped source columns are present, rename them, and
select either a fixed simplified column list or all renamed present
columns.  A pandas DataFrame built from a list of dicts has one column
per key occurring in any record; filtering rows never removes columns,
and `frame[cols]` raises `KeyError` when a requested column is absent. -/

/-- `column_mapping` (project.py lines 291–305), in insertion order. -/
def columnMapping : List (String × String) :=
  [("speciesCode", "Species Code"),
   ("comName", "Common Name"),
   ("sciName", "Scientific Name"),
   ("locID", "Location ID"),
   ("locName", "Location Observed"),
   ("obsDt", "Date Observed"),
   ("howMany", "Population"),
   ("lat", "Latitude"),
   ("lng", "Longitude"),
   ("valid", "Valid Observation"),
   ("reviewed", "Reviewed Observation"),
   ("private", "Location Private"),
   ("subID", "Sub ID")]

/-- Display name of a mapped source column. -/
def renameCol (k : String) : String :=
  match columnMapping.find? (fun p => p.1 == k) with
  | some p => p.2
  | none => k

/-- Drop later duplicates, keeping the first occurrence of each
element. -/
def dedupFirst : List String → List String
  | [] => []
  | x :: xs => x :: (dedupFirst xs).filter (fun y => y ≠ x)

/-- Columns of `pd.DataFrame(rows)`: every key occurring in some
record, in first-occurrence order. -/
def dfColumns (rows : List Raw) : List String :=
  dedupFirst (rows.flatMap (fun r => r.map (fun p => p.1)))

/-- `existing_columns = [col for col in column_mapping.keys() if col in
filtered_df.columns]` — row filtering preserves columns, so presence is
over the whole species-filtered record set. -/
def existingColumns (rows : List Raw) : List String :=
  (columnMapping.map (fun p => p.1)).filter (fun k => rows.any (fun r => r.hasKey k))

/-- Column names of `filtered_df` after
`rename(columns={k: v for k, v in column_mapping.items() if k in existing_columns})`:
mapped present columns get their display name, other columns keep
their raw key. -/
def renamedColumns (rows : List Raw) : List String :=
  (dfColumns rows).map (fun k => if (existingColumns rows).contains k then renameCol k else k)

/-- The simplified display column list hard-coded at project.py
line 318. -/
def simplifiedColumns : List String :=
  ["Common Name", "Scientific Name", "Location Observed", "Population",
   "Latitude", "Longitude"]

/-- Inner `filtered_df = df[df["comName"].isin(species_filter)] if
species_filter else df`: a record whose `comName` is absent or
non-string never matches (`NaN`/non-equal under `.isin`). -/
def innerFilter (rows : List Raw) (speciesFilter : List String) : List Raw :=
  if speciesFilter.isEmpty then rows
  else rows.filter (fun r =>
    match r.get "comName" with
    | some (Val.str s) => speciesFilter.contains s
    | _ => false)

/-- What `display_table` does for a record set in "Specific Data" mode. -/
inductive TableOutcome where
  | exc                        -- uncaught exception (KeyError)
  | noData                     -- st.error "No data available for species: ..."
  | noRelevant                 -- st.error "No relevant data available to display."
  | view (cols : List String) (rows : List Raw)  -- the rendered frame
deriving DecidableEq, Repr

/-- `display_table` ("Specific Data" branch): the emitted view's
columns, or the error outcome. -/
def displayTable (records : List Raw) (sel : List String)
    (speciesFilter : List String) (simplify : Bool) : TableOutcome :=
  match filterExc (comNameIn sel) records with
  | none => TableOutcome.exc
  | some data =>
      if data.isEmpty then TableOutcome.noData
      else
        let existing := existingColumns data
        if existing.isEmpty then TableOutcome.noRelevant
        else
          let filtered := innerFilter data speciesFilter
          if simplify then
            if simplifiedColumns.all (fun c => (renamedColumns data).contains c) then
              TableOutcome.view simplifiedColumns filtered
            else
              TableOutcome.exc
          else
            TableOutcome.view (existing.map renameCol) filtered

/-! ## CSV export (`main.py` table tab, lines 194–240)

`df = pd.DataFrame(species_dict)`; the view is filtered by species and
date range (row filtering only — columns stay `df.columns`); then
`convert_to_csv` runs `dataframe.to_csv(index=False).encode('utf-8')`. -/

/-- Render one cell of the CSV: pandas writes strings verbatim,
integers and booleans via `str`, and a missing value (`NaN`) as the
empty field.  (Quoting of separator characters is not modelled; no
claim involves cell values containing them.) -/
def cellStr : Option Val → String
  | some (Val.str s) => s
  | some (Val.int n) => toString n
  | some (Val.bool b) => if b then "True" else "False"
  | none => ""

/-- The lines of `to_csv(index=False)`: one header line of the frame's
column names, then one line per row of the view, in order — and
nothing else (no index column, no summary row). -/
def toCsvLines (cols : List String) (rows : List Raw) : List String :=
  (String.intercalate "," cols)
    :: rows.map (fun r => String.intercalate "," (cols.map (fun c => cellStr (r.get c))))

/-- `convert_to_csv(filtered_df)` as text: the filtered rows under the
original frame's columns, newline-joined with a trailing newline. -/
def convert_to_csv (records filteredRows : List Raw) : String :=
  String.intercalate "\n" (toCsvLines (dfColumns records) filteredRows) ++ "\n"

/-- The exported artifact: `.encode('utf-8')`. -/
def csvExport (records filteredRows : List Raw) : ByteArray :=
  (convert_to_csv records filteredRows).toUTF8

/-- The display (renamed) header `main.py`'s export would need for the
spec's header claim: display names of the present mapped columns. -/
def displayHeader (records : List Raw) : String :=
  String.intercalate "," ((existingColumns records).map renameCol)

/-! ## Zoom-level session state (`display_map`, project.py lines 74–97)

`st.session_state.zoom_level` is set to 3 when absent, then overwritten
with the value of a slider bounded between 3 and 10 whose default is
the stored level.  A slider only ever returns a value within its
bounds; the user's choice is embedded as an arbitrary integer clamped
into the widget's range (an untouched slider corresponds to choosing
the stored default). -/

/-- The value a bounded slider hands back for a user choice. -/
def sliderClamp (lo hi x : Int) : Int := max lo (min hi x)

/-- `zoom_level` initialization (lines 75–76): 3 when no stored value. -/
def zoomInit (z : Option Int) : Int := z.getD 3

/-- One run of `display_map`'s zoom logic: the new stored zoom level
(lines 88–97). -/
def displayMapZoom (choice : Int) : Int := sliderClamp 3 10 choice

/-- The session states reachable from a fresh session by runs of
`display_map`. -/
inductive ZoomReachable : Option Int → Prop
  | init : ZoomReachable none
  | step (z : Option Int) (choice : Int) :
      ZoomReachable z → ZoomReachable (some (displayMapZoom choice))

/-! ## Sample records

Concrete raw records in the shape the eBird API returns, used to
evaluate the pipeline at specific inputs. -/

/-- A Robin sighting on 2024-05-01 with a reported count of 2. -/
def robinMay1 : Raw :=
  [("comName", Val.str "Robin"), ("obsDt", Val.str "2024-05-01"), ("howMany", Val.int 2)]

/-- A Robin sighting on 2024-05-01 with no `howMany` field. -/
def robinMay1NoCount : Raw :=
  [("comName", Val.str "Robin"), ("obsDt", Val.str "2024-05-01")]

/-- A Robin sighting on 2024-05-02 with a reported count of 5. -/
def robinMay2 : Raw :=
  [("comName", Val.str "Robin"), ("obsDt", Val.str "2024-05-02"), ("howMany", Val.int 5)]

/-- A raw record with no `comName` key. -/
def noComName : Raw :=
  [("obsDt", Val.str "2024-05-01"), ("howMany", Val.int 5)]

/-- A raw record whose `comName` is the empty string. -/
def emptyComName : Raw :=
  [("comName", Val.str ""), ("obsDt", Val.str "2024-05-01"), ("howMany", Val.int 1)]

/-- A Blue Jay sighting on 2024-05-01 with a reported count of 3. -/
def jayMay1 : Raw :=
  [("comName", Val.str "Blue Jay"), ("obsDt", Val.str "2024-05-01"), ("howMany", Val.int 3)]

/-! ## Helper lemmas about the embedding combinators -/

theorem filterExc_eq_some {p : Raw → Option Bool} :
    ∀ {l out : List Raw}, filterExc p l = some out →
      (∀ a ∈ l, (p a).isSome) ∧ out = l.filter (fun x => p x == some true) := by
  intro l
  induction l with
  | nil =>
      intro out h
      simp only [filterExc, Option.some.injEq] at h
      subst h
      exact ⟨fun a ha => absurd ha (List.not_mem_nil a), by simp⟩
  | cons r rs ih =>
      intro out h
      simp only [filterExc, Option.bind_eq_bind, Option.bind_eq_some] at h
      obtain ⟨b, hb, rest, hrest, hout⟩ := h
      obtain ⟨hall, hfil⟩ := ih hrest
      constructor
      · intro a ha
        rcases List.mem_cons.1 ha with rfl | ha'
        · simp [hb]
        · exact hall a ha'
      · cases b with
        | true => simp at hout; simp [← hout, List.filter_cons, hb, hfil]
        | false => simp at hout; simp [← hout, List.filter_cons, hb, hfil]

theorem filterExc_isSome {p : Raw → Option Bool} :
    ∀ {l : List Raw}, (∀ a ∈ l, (p a).isSome) → (filterExc p l).isSome := by
  intro l
  induction l with
  | nil => intro _; simp [filterExc]
  | cons r rs ih =>
      intro hall
      have hr : (p r).isSome := hall r (List.mem_cons_self r rs)
      have hrs := ih (fun a ha => hall a (List.mem_cons_of_mem r ha))
      obtain ⟨b, hb⟩ := Option.isSome_iff_exists.1 hr
      obtain ⟨rest, hrest⟩ := Option.isSome_iff_exists.1 hrs
      simp [filterExc, hb, hrest]

theorem filterExc_none_of_mem {p : Raw → Option Bool} {l : List Raw} {a : Raw}
    (ha : a ∈ l) (hp : p a = none) : filterExc p l = none := by
  cases h : filterExc p l with
  | none => rfl
  | some out =>
      have := (filterExc_eq_some h).1 a ha
      rw [hp] at this
      simp at this

theorem mapExc_eq_some {f : α → Option β} :
    ∀ {l : List α} {out : List β}, mapExc f l = some out →
      (∀ a ∈ l, (f a).isSome) ∧ out = l.filterMap f := by
  intro l
  induction l with
  | nil =>
      intro out h
      simp only [mapExc, Option.some.injEq] at h
      subst h
      exact ⟨fun a ha => absurd ha (List.not_mem_nil a), by simp⟩
  | cons x xs ih =>
      intro out h
      simp only [mapExc, Option.bind_eq_bind, Option.bind_eq_some] at h
      obtain ⟨y, hy, ys, hys, hout⟩ := h
      obtain ⟨hall, hmap⟩ := ih hys
      simp at hout
      constructor
      · intro a ha
        rcases List.mem_cons.1 ha with rfl | ha'
        · simp [hy]
        · exact hall a ha'
      · simp [← hout, List.filterMap_cons, hy, hmap]

theorem mapExc_isSome {f : α → Option β} :
    ∀ {l : List α}, (∀ a ∈ l, (f a).isSome) → (mapExc f l).isSome := by
  intro l
  induction l with
  | nil => intro _; simp [mapExc]
  | cons x xs ih =>
      intro hall
      obtain ⟨y, hy⟩ := Option.isSome_iff_exists.1 (hall x (List.mem_cons_self x xs))
      obtain ⟨ys, hys⟩ := Option.isSome_iff_exists.1
        (ih (fun a ha => hall a (List.mem_cons_of_mem x ha)))
      simp [mapExc, hy, hys]

theorem mapExc_none_of_mem {f : α → Option β} {l : List α} {a : α}
    (ha : a ∈ l) (hf : f a = none) : mapExc f l = none := by
  cases h : mapExc f l with
  | none => rfl
  | some out =>
      have := (mapExc_eq_some h).1 a ha
      rw [hf] at this
      simp at this

theorem dedupFirst_mem {c : String} : ∀ {l : List String}, c ∈ dedupFirst l ↔ c ∈ l := by
  intro l
  induction l with
  | nil => simp [dedupFirst]
  | cons x xs ih =>
      by_cases hc : c = x
      · subst hc; simp [dedupFirst]
      · simp [dedupFirst, List.mem_filter, hc, ih]

theorem aggTotal_insertAgg (k : Nat × String) (v : Int) :
    ∀ acc, aggTotal (insertAgg acc k v) = aggTotal acc + v := by
  intro acc
  induction acc with
  | nil => simp [insertAgg, aggTotal]
  | cons p rest ih =>
      obtain ⟨k', s⟩ := p
      by_cases hk : k' = k
      · simp [insertAgg, hk, aggTotal]; ring
      · simp [insertAgg, hk, aggTotal] at ih ⊢; omega

theorem aggTotal_aggregate (rows : List Entry) :
    aggTotal (aggregate rows) = rowsTotal rows := by
  suffices h : ∀ (rows : List Entry) (acc : List ((Nat × String) × Int)),
      aggTotal (rows.foldl (fun acc e => insertAgg acc (e.date, e.species) e.population) acc)
        = aggTotal acc + rowsTotal rows by
    simpa [aggregate, aggTotal] using h rows []
  intro rows
  induction rows with
  | nil => intro acc; simp [rowsTotal]
  | cons e es ih =>
      intro acc
      simp only [List.foldl_cons, ih, aggTotal_insertAgg, rowsTotal, List.map_cons, List.sum_cons]
      omega

/-- The entries produced by `combinedData` for a species with no
matching record: there are none. -/
theorem combinedData_no_species {records : List Raw} {sel : List String} {s : String}
    {entries0 : List Entry} (hc : combinedData records sel = some entries0)
    (hnone : ∀ r ∈ records, r.get "comName" ≠ some (Val.str s)) :
    ∀ e ∈ entries0, e.species ≠ s := by
  intro e he
  simp only [combinedData, Option.bind_eq_bind, Option.bind_eq_some] at hc
  obtain ⟨data, hdata, groups, hgroups, hflat⟩ := hc
  obtain ⟨-, hdataf⟩ := filterExc_eq_some hdata
  obtain ⟨-, hgroupsf⟩ := mapExc_eq_some hgroups
  have hflat' : groups.flatten = entries0 := by
    simpa using hflat
  rw [← hflat'] at he
  obtain ⟨g, hg, heg⟩ := List.mem_flatten.1 he
  rw [hgroupsf] at hg
  obtain ⟨s', -, hs'⟩ := List.mem_filterMap.1 hg
  simp only [speciesEntries, Option.bind_eq_bind, Option.bind_eq_some] at hs'
  obtain ⟨filt, hfilt, hmap⟩ := hs'
  obtain ⟨-, hfiltf⟩ := filterExc_eq_some hfilt
  obtain ⟨-, hgf⟩ := mapExc_eq_some hmap
  rw [hgf] at heg
  obtain ⟨r, hr, hre⟩ := List.mem_filterMap.1 heg
  simp only [mkEntry, Option.bind_eq_bind, Option.bind_eq_some] at hre
  obtain ⟨d, -, hd⟩ := hre
  have hd' : (⟨s', d, r.howManyD⟩ : Entry) = e := by simpa using hd
  rw [hfiltf] at hr
  obtain ⟨hrdata, hrq⟩ := List.mem_filter.1 hr
  have hrq' : comNameEq s' r = some true := eq_of_beq hrq
  have hcm : r.get "comName" = some (Val.str s') := by
    simp only [comNameEq] at hrq'
    cases hcmv : r.get "comName" with
    | none => rw [hcmv] at hrq'; simp at hrq'
    | some v =>
        rw [hcmv] at hrq'
        simp only [Option.map_some', Option.some.injEq] at hrq'
        rw [eq_of_beq hrq']
  have hrrec : r ∈ records := by
    rw [hdataf] at hrdata
    exact (List.mem_filter.1 hrdata).1
  have hs's : s' ≠ s := by
    intro hss
    exact hnone r hrrec (by rw [← hss]; exact hcm)
  rw [← hd']
  exact hs's

/-- A record passing the `obs["comName"] in species_selected` test has
a string `comName` equal to one of the selected names. -/
theorem comNameIn_some_true {sel : List String} {r : Raw}
    (h : comNameIn sel r = some true) :
    ∃ s ∈ sel, r.get "comName" = some (Val.str s) := by
  unfold comNameIn at h
  cases hg : r.get "comName" with
  | none => rw [hg] at h; simp at h
  | some v =>
      rw [hg] at h
      simp only [Option.map_some', Option.some.injEq] at h
      cases v with
      | str s => exact ⟨s, by simpa using h, rfl⟩
      | int n => simp at h
      | bool b => simp at h

/-- A record whose `comName` is the string `s` passes the
`obs["comName"] == s` test. -/
theorem comNameEq_self {r : Raw} {s : String}
    (h : r.get "comName" = some (Val.str s)) : comNameEq s r = some true := by
  simp [comNameEq, h]

/-- C7: the fetch operation reports a user-visible error and returns an
empty record set for every non-200 HTTP status and for every 200
response whose body fails JSON decoding, and returns the decoded
records for a 200 response with a decodable JSON array. -/
theorem fetch_reports_error_and_returns_empty (resp : HttpResponse) :
    (resp.status ≠ 200 → observed_US resp = ⟨[], true⟩) ∧
    (resp.status = 200 → resp.decoded = none → observed_US resp = ⟨[], true⟩) ∧
    (∀ rs, resp.status = 200 → resp.decoded = some rs →
      observed_US resp = ⟨rs, false⟩) := by
  refine ⟨fun h => ?_, fun h h' => ?_, fun rs h h' => ?_⟩
  · simp [observed_US, h]
  · simp [observed_US, h, h']
  · simp [observed_US, h, h']

/-- Witness for the C7 theorem at concrete responses: an HTTP 500, a
200 with an undecodable body, and a 200 carrying one record. -/
theorem fetch_reports_error_witness :
    observed_US ⟨500, none⟩ = ⟨[], true⟩ ∧
    observed_US ⟨200, none⟩ = ⟨[], true⟩ ∧
    observed_US ⟨200, some [robinMay1]⟩ = ⟨[robinMay1], false⟩ :=
  ⟨(fetch_reports_error_and_returns_empty ⟨500, none⟩).1 (by decide),
   (fetch_reports_error_and_returns_empty ⟨200, none⟩).2.1 rfl rfl,
   (fetch_reports_error_and_returns_empty ⟨200, some [robinMay1]⟩).2.2 [robinMay1] rfl rfl⟩

/-- C9: in every session state reachable by runs of `display_map`, the
stored zoom level is between 3 and 10 — the initialization value is in
range and every slider update keeps it in range. -/
theorem zoom_level_bounded {s : Option Int} (h : ZoomReachable s) :
    (3 ≤ zoomInit s ∧ zoomInit s ≤ 10) ∧ ∀ v, s = some v → 3 ≤ v ∧ v ≤ 10 := by
  have hclamp : ∀ c : Int, 3 ≤ displayMapZoom c ∧ displayMapZoom c ≤ 10 := by
    intro c
    unfold displayMapZoom sliderClamp
    exact ⟨le_max_left _ _, max_le (by norm_num) (min_le_left _ _)⟩
  induction h with
  | init => exact ⟨by simp [zoomInit], fun v hv => by cases hv⟩
  | step z choice hz ih =>
      refine ⟨by simpa [zoomInit] using hclamp choice, fun v hv => ?_⟩
      injection hv with hv
      rw [← hv]
      exact hclamp choice

/-- Witness for the C9 theorem: after one `display_map` run choosing 7
on the slider, the stored zoom level 7 is within bounds. -/
theorem zoom_level_bounded_witness : (3 : Int) ≤ 7 ∧ (7 : Int) ≤ 10 :=
  (zoom_level_bounded (ZoomReachable.step none 7 ZoomReachable.init)).2 7 (by decide)

/-- C4: a record with no `howMany` field is read as population 0, and
in the spec's Robin scenario the two normalized populations are
`[2, 0]` and the (2024-05-01, Robin) aggregate equals 2. -/
theorem absent_howMany_population_zero :
    (∀ r : Raw, r.get "howMany" = none → r.howManyD = 0) ∧
    (combinedData [robinMay1, robinMay1NoCount] ["Robin"]).map
        (fun es => es.map Entry.population) = some [2, 0] ∧
    (barRows [robinMay1, robinMay1NoCount] ["Robin"]).map
        (fun rows => aggLookup (aggregate rows) (202405010000, "Robin")) = some 2 := by
  refine ⟨fun r hr => ?_, by decide, by decide⟩
  simp [Raw.howManyD, hr]

/-- Witness for the C4 theorem at the record with no `howMany`. -/
theorem absent_howMany_population_zero_witness : Raw.howManyD robinMay1NoCount = 0 :=
  absent_howMany_population_zero.1 robinMay1NoCount (by decide)

/-- C10: the `main.py` pipeline indexes `comName` and `howMany`
unguarded: success of the species list forces every fetched record to
carry `comName`, a record missing `comName` makes the species list
raise (`none`), a matching record missing `howMany` makes the line-plot
series raise, and both failures happen on concrete record sets. -/
theorem main_pipeline_keyError_on_missing_keys :
    (∀ (records : List Raw) (out : List Val), speciesListMain records = some out →
        ∀ r ∈ records, (r.get "comName").isSome) ∧
    (∀ (records : List Raw) (r : Raw), r ∈ records →
        r.get "comName" = none → speciesListMain records = none) ∧
    (∀ (records : List Raw) (s : String) (r : Raw), r ∈ records →
        comNameEq s r = some true → r.get "howMany" = none →
        mainLineSeries records s = none) ∧
    speciesListMain [robinMay1, noComName] = none ∧
    mainLineSeries [robinMay1, robinMay1NoCount] "Robin" = none := by
  refine ⟨?_, ?_, ?_, by decide, by decide⟩
  · intro records out h r hr
    exact (mapExc_eq_some h).1 r hr
  · intro records r hr hnone
    exact mapExc_none_of_mem hr hnone
  · intro records s r hr hmatch hnone
    induction records with
    | nil => cases hr
    | cons x xs ih =>
        rcases List.mem_cons.1 hr with rfl | hr'
        · simp only [mainLineSeries, hmatch, Option.bind_eq_bind, Option.some_bind, if_true]
          cases hd : r.obsDate with
          | none => simp
          | some d => simp [hnone]
        · have hxs := ih hr'
          simp only [mainLineSeries, Option.bind_eq_bind]
          cases hb : comNameEq s x with
          | none => simp
          | some b =>
              cases b with
              | false => simp [hxs]
              | true =>
                  simp only [Option.some_bind, if_true]
                  cases hd : x.obsDate with
                  | none => simp
                  | some d =>
                      cases hp : x.get "howMany" with
                      | none => simp
                      | some p => simp [hxs]

/-- Witness for the C10 theorem: its universally quantified conjuncts
applied at concrete record sets. -/
theorem main_pipeline_keyError_witness :
    (robinMay1.get "comName").isSome ∧
    speciesListMain [noComName] = none ∧
    mainLineSeries [robinMay1NoCount] "Robin" = none :=
  ⟨main_pipeline_keyError_on_missing_keys.1 [robinMay1] [Val.str "Robin"] (by decide)
      robinMay1 (by decide),
   main_pipeline_keyError_on_missing_keys.2.1 [noComName] noComName (by decide) (by decide),
   main_pipeline_keyError_on_missing_keys.2.2.1 [robinMay1NoCount] "Robin" robinMay1NoCount
      (by decide) (by decide) (by decide)⟩

/-- C6: a requested species with zero matching records yields an empty
series — in the drawn line plot its per-species series is `[]`, and in
the bar-graph frame it contributes no rows — rather than an error. -/
theorem zero_match_species_empty_series
    (records : List Raw) (sel : List String) (s : String)
    (hnone : ∀ r ∈ records, r.get "comName" ≠ some (Val.str s)) :
    (∀ entries, displayLinePlot records sel = PlotOutcome.plot entries →
        seriesOf entries s = []) ∧
    (∀ rows, barRows records sel = some rows →
        (rows.filter (fun e => e.species == s)).map (fun e => (e.date, e.population)) = []) := by
  have hbar : ∀ rows, barRows records sel = some rows →
      (rows.filter (fun e => e.species == s)).map (fun e => (e.date, e.population)) = [] := by
    intro rows hc
    have hs := combinedData_no_species hc hnone
    have : rows.filter (fun e => e.species == s) = [] := by
      rw [List.filter_eq_nil_iff]
      intro e he
      simpa using hs e he
    simp [this]
  refine ⟨?_, hbar⟩
  intro entries hplot
  unfold displayLinePlot at hplot
  split at hplot
  · exact PlotOutcome.noConfusion hplot
  · split at hplot
    · exact PlotOutcome.noConfusion hplot
    · split at hplot
      · exact PlotOutcome.noConfusion hplot
      · rename_i entries0 hcomb
        injection hplot with hplot
        have hs := combinedData_no_species hcomb hnone
        rw [← hplot]
        unfold seriesOf
        have : (entries0.insertionSort dateLE).filter (fun e => e.species == s) = [] := by
          rw [List.filter_eq_nil_iff]
          intro e he
          have := hs e ((List.perm_insertionSort dateLE entries0).mem_iff.1 he)
          simpa using this
        simp [this]

/-- Witness for the C6 theorem: with only a Blue Jay record fetched,
the requested species Robin gets an empty series while the plot is
still drawn. -/
theorem zero_match_empty_series_witness :
    seriesOf [⟨"Blue Jay", 202405010000, 3⟩] "Robin" = [] :=
  (zero_match_species_empty_series [jayMay1] ["Blue Jay", "Robin"] "Robin" (by decide)).1
    [⟨"Blue Jay", 202405010000, 3⟩] (by decide)

/-- C1 counterexample: the pipeline does not silently exclude malformed
records, and does not guarantee non-empty names.  A record set
containing a record with no `comName` makes `display_line_plot` raise a
`KeyError` instead of dropping it, and a record whose `comName` is the
empty string enters the plotted series when selected. -/
theorem malformed_records_counterexample :
    displayLinePlot [robinMay1, noComName] ["Robin"] = PlotOutcome.exc ∧
    displayLinePlot [emptyComName] [""] =
      PlotOutcome.plot [⟨"", 202405010000, 1⟩] := by
  exact ⟨by decide, by decide⟩

/-- C1 amended: the species filter keeps only records whose `comName`
is one of the requested names (so processed count ≤ fetched count and
every processed record carries a requested name, and every plotted
entry has a parseable date by construction); but a record missing
`comName` makes the cycle raise, and a selected record whose `obsDt` is
missing or unparseable also makes it raise — neither is silently
excluded. -/
theorem normalization_amended (records : List Raw) (sel : List String) :
    (∀ data, filterExc (comNameIn sel) records = some data →
        data.length ≤ records.length ∧
        ∀ r ∈ data, ∃ s ∈ sel, r.get "comName" = some (Val.str s)) ∧
    ((∃ r ∈ records, r.get "comName" = none) →
        displayLinePlot records sel = PlotOutcome.exc) ∧
    ((∃ r ∈ records, comNameIn sel r = some true ∧ r.obsDate = none) →
        displayLinePlot records sel = PlotOutcome.exc) := by
  refine ⟨?_, ?_, ?_⟩
  · intro data hdata
    obtain ⟨-, hf⟩ := filterExc_eq_some hdata
    subst hf
    refine ⟨List.length_filter_le _ _, fun r hr => ?_⟩
    obtain ⟨-, hrq⟩ := List.mem_filter.1 hr
    exact comNameIn_some_true (eq_of_beq hrq)
  · rintro ⟨r, hr, hnone⟩
    have hri : comNameIn sel r = none := by simp [comNameIn, hnone]
    have hfe : filterExc (comNameIn sel) records = none :=
      filterExc_none_of_mem hr hri
    unfold displayLinePlot
    rw [hfe]
  · rintro ⟨r, hr, hin, hdate⟩
    cases hfe : filterExc (comNameIn sel) records with
    | none => unfold displayLinePlot; rw [hfe]
    | some data =>
        obtain ⟨hall, hf⟩ := filterExc_eq_some hfe
        have hrdata : r ∈ data := by
          rw [hf]
          exact List.mem_filter.2 ⟨hr, by simp [hin]⟩
        obtain ⟨s, hssel, hcm⟩ := comNameIn_some_true hin
        have hne : data.isEmpty = false := by
          cases data with
          | nil => cases hrdata
          | cons a as => rfl
        have hfilt : ∀ x ∈ data, (comNameEq s x).isSome := by
          intro x hx
          rw [hf] at hx
          obtain ⟨-, hxq⟩ := List.mem_filter.1 hx
          obtain ⟨s', -, hcm'⟩ := comNameIn_some_true (eq_of_beq hxq)
          simp [comNameEq, hcm']
        obtain ⟨filt, hfilte⟩ :=
          Option.isSome_iff_exists.1 (filterExc_isSome hfilt)
        have hrfilt : r ∈ filt := by
          obtain ⟨-, hfiltf⟩ := filterExc_eq_some hfilte
          rw [hfiltf]
          exact List.mem_filter.2 ⟨hrdata, by simp [comNameEq_self hcm]⟩
        have hmk : mkEntry s r = none := by
          simp [mkEntry, hdate]
        have hse : speciesEntries data s = none := by
          simp [speciesEntries, hfilte, mapExc_none_of_mem hrfilt hmk]
        have hcomb : combinedData records sel = none := by
          simp [combinedData, hfe, mapExc_none_of_mem hssel hse]
        unfold displayLinePlot
        rw [hfe, hcomb]
        simp [hne]

/-- Witness for the C1 amended theorem: the filter keeps the one
matching well-formed record out of two fetched ones, and a missing
`comName` or an unparseable `obsDt` makes the plot raise. -/
theorem normalization_amended_witness :
    ([robinMay1].length ≤ [robinMay1, jayMay1].length ∧
      ∀ r ∈ [robinMay1], ∃ s ∈ ["Robin"], r.get "comName" = some (Val.str s)) ∧
    displayLinePlot [robinMay1, noComName] ["Robin"] = PlotOutcome.exc ∧
    displayLinePlot [[("comName", Val.str "Robin"), ("obsDt", Val.str "soon")]] ["Robin"]
      = PlotOutcome.exc :=
  ⟨(normalization_amended [robinMay1, jayMay1] ["Robin"]).1 [robinMay1] (by decide),
   (normalization_amended [robinMay1, noComName] ["Robin"]).2.1
      ⟨noComName, by decide, by decide⟩,
   (normalization_amended [[("comName", Val.str "Robin"), ("obsDt", Val.str "soon")]]
      ["Robin"]).2.2
      ⟨[("comName", Val.str "Robin"), ("obsDt", Val.str "soon")], by decide, by decide, by decide⟩⟩

theorem sum_map_add_distrib (l : List String) (f g : String → Int) :
    (l.map (fun s => f s + g s)).sum = (l.map f).sum + (l.map g).sum := by
  induction l with
  | nil => simp
  | cons x xs ih => simp [ih]; ring

theorem sum_indicator {c : String} (v : Int) :
    ∀ {sel : List String}, sel.Nodup → c ∈ sel →
      (sel.map (fun s => if s = c then v else 0)).sum = v := by
  intro sel
  induction sel with
  | nil => intro _ h; cases h
  | cons s rest ih =>
      intro hnd hc
      rcases List.mem_cons.1 hc with rfl | hc'
      · have hnot : c ∉ rest := (List.nodup_cons.1 hnd).1
        have hzero : (rest.map (fun x => if x = c then v else (0:Int))).sum = 0 := by
          apply List.sum_eq_zero
          intro x hx
          obtain ⟨y, hy, hxy⟩ := List.mem_map.1 hx
          have hyc : y ≠ c := fun h => hnot (h ▸ hy)
          rw [← hxy, if_neg hyc]
        simp [hzero]
      · have hsc : s ≠ c := fun h => (List.nodup_cons.1 hnd).1 (h ▸ hc')
        simp [hsc, ih (List.nodup_cons.1 hnd).2 hc']

/-- The populations of the entries built by the inner loop are exactly
the (defaulted) `howMany` values of the records it ran over. -/
theorem mapExc_mkEntry_populations {s : String} :
    ∀ {l : List Raw} {out : List Entry}, mapExc (mkEntry s) l = some out →
      out.map Entry.population = l.map Raw.howManyD := by
  intro l
  induction l with
  | nil =>
      intro out h
      simp only [mapExc, Option.some.injEq] at h
      subst h
      simp
  | cons r rs ih =>
      intro out h
      simp only [mapExc, Option.bind_eq_bind, Option.bind_eq_some] at h
      obtain ⟨e, he, ys, hys, hout⟩ := h
      have hout' : e :: ys = out := by simpa using hout
      have hpop : e.population = r.howManyD := by
        simp only [mkEntry, Option.bind_eq_bind, Option.bind_eq_some] at he
        obtain ⟨d, -, hd⟩ := he
        have : (⟨s, d, r.howManyD⟩ : Entry) = e := by simpa using hd
        rw [← this]
      rw [← hout']
      simp [hpop, ih hys]

/-- The population list of one species group equals the `howMany`
values of the records whose `comName` matches that species. -/
theorem speciesEntries_populations {data : List Raw} {s : String} {g : List Entry}
    (h : speciesEntries data s = some g) :
    g.map Entry.population =
      (data.filter (fun x => comNameEq s x == some true)).map Raw.howManyD := by
  simp only [speciesEntries, Option.bind_eq_bind, Option.bind_eq_some] at h
  obtain ⟨filt, hfilt, hmap⟩ := h
  obtain ⟨-, hfiltf⟩ := filterExc_eq_some hfilt
  rw [← hfiltf]
  exact mapExc_mkEntry_populations hmap

theorem filterMap_total_sum {sel : List String} {F : String → Option (List Entry)}
    {T : String → Int}
    (hsome : ∀ s ∈ sel, (F s).isSome)
    (hT : ∀ s ∈ sel, ∀ g, F s = some g → (g.map Entry.population).sum = T s) :
    ((sel.filterMap F).map (fun g => (g.map Entry.population).sum)).sum
      = (sel.map T).sum := by
  induction sel with
  | nil => simp
  | cons s rest ih =>
      obtain ⟨g, hg⟩ := Option.isSome_iff_exists.1 (hsome s (List.mem_cons_self s rest))
      rw [List.filterMap_cons, hg]
      simp only [List.map_cons, List.sum_cons]
      rw [hT s (List.mem_cons_self s rest) g hg,
        ih (fun x hx => hsome x (List.mem_cons_of_mem s hx))
           (fun x hx => hT x (List.mem_cons_of_mem s hx))]

/-- Splitting the sum of populations over a record set into per-species
sums: with a duplicate-free species selection, each record whose
`comName` is one of the selected names is counted exactly once. -/
theorem sum_filter_partition {sel : List String} (hnd : sel.Nodup) :
    ∀ (data : List Raw), (∀ r ∈ data, ∃ c ∈ sel, r.get "comName" = some (Val.str c)) →
      (sel.map (fun s =>
          ((data.filter (fun x => comNameEq s x == some true)).map Raw.howManyD).sum)).sum
        = (data.map Raw.howManyD).sum := by
  intro data
  induction data with
  | nil => simp
  | cons r ds ih =>
      intro hall
      obtain ⟨c, hcsel, hcm⟩ := hall r (List.mem_cons_self r ds)
      have hterm : ∀ s ∈ sel,
          (((r :: ds).filter (fun x => comNameEq s x == some true)).map Raw.howManyD).sum
            = (if s = c then r.howManyD else 0)
              + ((ds.filter (fun x => comNameEq s x == some true)).map Raw.howManyD).sum := by
        intro s _
        rw [List.filter_cons]
        by_cases hsc : s = c
        · subst hsc
          rw [if_pos (by simp [comNameEq, hcm])]
          simp
        · have hbeq : (Val.str c == Val.str s) = false := by
            rw [beq_eq_false_iff_ne]
            intro h
            exact hsc (Val.str.inj h).symm
          rw [if_neg (by simp [comNameEq, hcm, hbeq])]
          simp [hsc]
      calc (sel.map (fun s =>
              (((r :: ds).filter (fun x => comNameEq s x == some true)).map
                Raw.howManyD).sum)).sum
          = (sel.map (fun s => (if s = c then r.howManyD else 0)
              + ((ds.filter (fun x => comNameEq s x == some true)).map
                  Raw.howManyD).sum)).sum := by
            exact congrArg List.sum (List.map_congr_left hterm)
        _ = (sel.map (fun s => if s = c then r.howManyD else 0)).sum
              + (sel.map (fun s =>
                  ((ds.filter (fun x => comNameEq s x == some true)).map
                    Raw.howManyD).sum)).sum := by
            exact sum_map_add_distrib sel _ _
        _ = r.howManyD + (ds.map Raw.howManyD).sum := by
            rw [sum_indicator r.howManyD hnd hcsel,
              ih (fun x hx => hall x (List.mem_cons_of_mem r hx))]
        _ = ((r :: ds).map Raw.howManyD).sum := by simp

/-- C3: the grouped aggregate's total population over all
(date, species) keys equals the population sum over all input records
whose `comName` is in the requested species set. -/
theorem aggregate_total_matches_input
    (records : List Raw) (sel : List String) (rows : List Entry)
    (hnd : sel.Nodup) (hrows : barRows records sel = some rows) :
    aggTotal (aggregate rows) =
      ((records.filter (fun r => comNameIn sel r == some true)).map Raw.howManyD).sum := by
  rw [aggTotal_aggregate]
  simp only [barRows, combinedData, Option.bind_eq_bind, Option.bind_eq_some] at hrows
  obtain ⟨data, hdata, groups, hgroups, hflat⟩ := hrows
  have hflat' : groups.flatten = rows := by simpa using hflat
  obtain ⟨-, hdataf⟩ := filterExc_eq_some hdata
  obtain ⟨hgall, hgroupsf⟩ := mapExc_eq_some hgroups
  have hall : ∀ r ∈ data, ∃ c ∈ sel, r.get "comName" = some (Val.str c) := by
    intro r hr
    rw [hdataf] at hr
    exact comNameIn_some_true (eq_of_beq (List.mem_filter.1 hr).2)
  calc rowsTotal rows
      = ((groups.map (fun g => (g.map Entry.population).sum)).sum) := by
        rw [← hflat']
        simp only [rowsTotal, List.map_flatten, List.sum_flatten, List.map_map]
        rfl
    _ = (sel.map (fun s =>
          ((data.filter (fun x => comNameEq s x == some true)).map Raw.howManyD).sum)).sum := by
        rw [hgroupsf]
        exact filterMap_total_sum hgall (fun s _ g hg => by
          rw [speciesEntries_populations hg])
    _ = (data.map Raw.howManyD).sum := sum_filter_partition hnd data hall
    _ = ((records.filter (fun r => comNameIn sel r == some true)).map Raw.howManyD).sum := by
        rw [← hdataf]

/-- Witness for the C3 theorem: two Robins and a Blue Jay aggregate to
a total of 10, the sum over the three matching records. -/
theorem aggregate_total_witness :
    aggTotal (aggregate [⟨"Robin", 202405010000, 2⟩, ⟨"Robin", 202405020000, 5⟩,
        ⟨"Blue Jay", 202405010000, 3⟩]) =
      ((([robinMay1, robinMay2, jayMay1] : List Raw).filter
          (fun r => comNameIn ["Robin", "Blue Jay"] r == some true)).map Raw.howManyD).sum :=
  aggregate_total_matches_input [robinMay1, robinMay2, jayMay1] ["Robin", "Blue Jay"]
    [⟨"Robin", 202405010000, 2⟩, ⟨"Robin", 202405020000, 5⟩, ⟨"Blue Jay", 202405010000, 3⟩]
    (by decide) (by decide)

/-- A record whose `comName` is a selected name passes the selection
filter. -/
theorem comNameIn_self {sel : List String} {r : Raw} {s : String}
    (h : r.get "comName" = some (Val.str s)) (hs : s ∈ sel) :
    comNameIn sel r = some true := by
  simp [comNameIn, h, hs]

/-- Destructuring a drawn line plot: the plotted entries are the
date-sorted `combined_data`. -/
theorem displayLinePlot_plot {records : List Raw} {sel : List String} {entries : List Entry}
    (h : displayLinePlot records sel = PlotOutcome.plot entries) :
    ∃ entries0, combinedData records sel = some entries0 ∧
      entries = entries0.insertionSort dateLE := by
  unfold displayLinePlot at h
  split at h
  · exact PlotOutcome.noConfusion h
  · split at h
    · exact PlotOutcome.noConfusion h
    · split at h
      · exact PlotOutcome.noConfusion h
      · rename_i entries0 hcomb
        injection h with h
        exact ⟨entries0, hcomb, h.symm⟩

/-- A sighting of Robin on 2024-05-01 reporting 7 birds, used as an
equal-date companion to `robinMay1`. -/
def robinMay1Later : Raw :=
  [("comName", Val.str "Robin"), ("obsDt", Val.str "2024-05-01"), ("howMany", Val.int 7)]

/-- C2 counterexample: `main.py`'s line-plot tab emits the series in
raw input order without sorting — with the 2024-05-02 Robin record
fetched before the 2024-05-01 one, the later date comes first, so the
series is not sorted non-decreasing by date. -/
theorem series_sorted_counterexample :
    mainLineSeries [robinMay2, robinMay1] "Robin"
      = some [(202405020000, Val.int 5), (202405010000, Val.int 2)] ∧
    ¬ (202405020000 : Nat) ≤ 202405010000 := by
  exact ⟨by decide, by decide⟩

/-- C2 amended: `project.py`'s `display_line_plot` sorts with pandas
default quicksort, which guarantees only some permutation of
`combined_data` non-decreasing in the date key, with the order among
equal dates unspecified — it is not stable, so equal-date records need
not keep their input order.  For every such admissible sort outcome,
each per-species series is sorted non-decreasing by date and is a
permutation of that species' points of `combined_data`; the
embedding's concrete sort is one admissible outcome.  `main.py`'s
line-plot tab does not sort at all, so its series is in raw input
order. -/
theorem build_series_sorted_amended :
    (∀ (records : List Raw) (sel : List String) (entries0 entries : List Entry) (s : String),
        combinedData records sel = some entries0 →
        entries.Perm entries0 →
        List.Pairwise dateLE entries →
        (seriesOf entries s).Pairwise (fun p q => p.1 ≤ q.1) ∧
        (seriesOf entries s).Perm (seriesOf entries0 s)) ∧
    (∀ (records : List Raw) (sel : List String) (entries : List Entry),
        displayLinePlot records sel = PlotOutcome.plot entries →
        ∃ entries0, combinedData records sel = some entries0 ∧
          entries.Perm entries0 ∧ List.Pairwise dateLE entries) := by
  constructor
  · intro records sel entries0 entries s hcomb hperm hsorted
    constructor
    · unfold seriesOf
      rw [List.pairwise_map]
      exact List.Pairwise.filter _ hsorted
    · unfold seriesOf
      exact (hperm.filter _).map _
  · intro records sel entries hplot
    obtain ⟨entries0, hcomb, hsort⟩ := displayLinePlot_plot hplot
    subst hsort
    exact ⟨entries0, hcomb, List.perm_insertionSort dateLE entries0,
      List.sorted_insertionSort dateLE entries0⟩

/-- Witness for the C2 amended theorem: for two equal-date Robin
records, the reversed tie order — an outcome the unstable sort may
produce — still gives a sorted series that is a permutation of the
input-order points; and the drawn plot is itself a date-sorted
permutation of `combined_data`. -/
theorem build_series_sorted_witness :
    ((seriesOf [⟨"Robin", 202405010000, 7⟩, ⟨"Robin", 202405010000, 2⟩] "Robin").Pairwise
        (fun p q => p.1 ≤ q.1) ∧
      (seriesOf [⟨"Robin", 202405010000, 7⟩, ⟨"Robin", 202405010000, 2⟩] "Robin").Perm
        (seriesOf [⟨"Robin", 202405010000, 2⟩, ⟨"Robin", 202405010000, 7⟩] "Robin")) ∧
    ∃ entries0, combinedData [robinMay1, robinMay2] ["Robin"] = some entries0 ∧
      ([⟨"Robin", 202405010000, 2⟩, ⟨"Robin", 202405020000, 5⟩] : List Entry).Perm entries0 ∧
      List.Pairwise dateLE [⟨"Robin", 202405010000, 2⟩, ⟨"Robin", 202405020000, 5⟩] :=
  ⟨build_series_sorted_amended.1 [robinMay1, robinMay1Later] ["Robin"]
      [⟨"Robin", 202405010000, 2⟩, ⟨"Robin", 202405010000, 7⟩]
      [⟨"Robin", 202405010000, 7⟩, ⟨"Robin", 202405010000, 2⟩] "Robin"
      (by decide) (by decide) (by decide),
   build_series_sorted_amended.2 [robinMay1, robinMay2] ["Robin"]
      [⟨"Robin", 202405010000, 2⟩, ⟨"Robin", 202405020000, 5⟩] (by decide)⟩

/-- The six raw source fields behind the simplified column list. -/
def simplifiedSources : List String :=
  ["comName", "sciName", "locName", "howMany", "lat", "lng"]

theorem hasKey_iff {r : Raw} {k : String} : r.hasKey k = true ↔ ∃ p ∈ r, p.1 = k := by
  unfold Raw.hasKey
  rw [List.find?_isSome]
  simp

theorem dfColumns_mem {rows : List Raw} {c : String} :
    c ∈ dfColumns rows ↔ ∃ r ∈ rows, r.hasKey c = true := by
  unfold dfColumns
  rw [dedupFirst_mem, List.mem_flatMap]
  simp [hasKey_iff, List.mem_map]

theorem existingColumns_mem {rows : List Raw} {k : String} :
    k ∈ existingColumns rows ↔
      k ∈ columnMapping.map Prod.fst ∧ rows.any (fun r => r.hasKey k) = true := by
  unfold existingColumns
  rw [List.mem_filter]

/-- Under the eBird schema (every key of every record is one of the 13
mapped keys), every column name of the renamed frame is the display
name of a present mapped column. -/
theorem renamedColumns_char {data : List Raw}
    (hschema : ∀ r ∈ data, ∀ p ∈ r, p.1 ∈ columnMapping.map Prod.fst) :
    ∀ {c}, c ∈ renamedColumns data → ∃ k, k ∈ existingColumns data ∧ renameCol k = c := by
  intro c hc
  unfold renamedColumns at hc
  obtain ⟨ck, hck, hite⟩ := List.mem_map.1 hc
  obtain ⟨r, hr, hkey⟩ := dfColumns_mem.1 hck
  have hmapped : ck ∈ columnMapping.map Prod.fst := by
    obtain ⟨p, hp, hpk⟩ := hasKey_iff.1 hkey
    exact hpk ▸ hschema r hr p hp
  have hpresent : data.any (fun x => x.hasKey ck) = true :=
    List.any_eq_true.2 ⟨r, hr, hkey⟩
  have hex : ck ∈ existingColumns data := existingColumns_mem.2 ⟨hmapped, hpresent⟩
  rw [if_pos (by simpa using hex)] at hite
  exact ⟨ck, hex, hite⟩

/-- Destructuring a rendered table view: the emitted columns come from
either the simplified list or the renamed present columns. -/
theorem displayTable_view {records : List Raw} {sel sf : List String} {simplify : Bool}
    {cols : List String} {rows : List Raw}
    (h : displayTable records sel sf simplify = TableOutcome.view cols rows) :
    ∃ data, filterExc (comNameIn sel) records = some data ∧
      data.isEmpty = false ∧ rows = innerFilter data sf ∧
      ((simplify = true ∧ cols = simplifiedColumns ∧
          simplifiedColumns.all (fun c => (renamedColumns data).contains c) = true) ∨
        (simplify = false ∧ cols = (existingColumns data).map renameCol)) := by
  simp only [displayTable] at h
  split at h
  · exact TableOutcome.noConfusion h
  · rename_i data hdata
    split at h
    · exact TableOutcome.noConfusion h
    · rename_i hde
      split at h
      · exact TableOutcome.noConfusion h
      · split at h
        · rename_i hsimp
          split at h
          · rename_i hall
            injection h with h1 h2
            exact ⟨data, hdata, by simpa using hde, h2.symm,
              Or.inl ⟨hsimp, h1.symm, hall⟩⟩
          · exact TableOutcome.noConfusion h
        · rename_i hsimp
          injection h with h1 h2
          exact ⟨data, hdata, by simpa using hde, h2.symm,
            Or.inr ⟨by simpa using hsimp, h1.symm⟩⟩

/-- C5 counterexample: with a single Robin record carrying only
`comName`, `obsDt` and `howMany`... the fields `sciName`, `locName`,
`lat`, `lng` are absent, so simplified mode raises a `KeyError`
instead of omitting the absent columns, while full mode omits them. -/
theorem table_projection_counterexample :
    displayTable [robinMay1] ["Robin"] [] true = TableOutcome.exc ∧
    displayTable [robinMay1] ["Robin"] [] false
      = TableOutcome.view ["Common Name", "Date Observed", "Population"] [robinMay1] := by
  exact ⟨by decide, by decide⟩

/-- C5 amended: only full mode projects by intersecting the mapped
columns with the columns present in the record set (its view has
exactly the renamed present mapped columns); simplified mode requests a
fixed six-column list, and raises whenever one of its six source fields
is absent from the whole record set; when simplified mode does succeed
its columns are a subset of full mode's. -/
theorem table_projection_amended :
    (∀ (records : List Raw) (sel sf cols : List String) (rows : List Raw),
        displayTable records sel sf false = TableOutcome.view cols rows →
        ∃ data, filterExc (comNameIn sel) records = some data ∧
          ∀ c, c ∈ cols ↔
            ∃ p ∈ columnMapping, p.2 = c ∧ data.any (fun r => r.hasKey p.1) = true) ∧
    (∀ (records : List Raw) (sel sf : List String) (data : List Raw) (k : String),
        filterExc (comNameIn sel) records = some data →
        data ≠ [] →
        existingColumns data ≠ [] →
        (∀ r ∈ data, ∀ p ∈ r, p.1 ∈ columnMapping.map Prod.fst) →
        k ∈ simplifiedSources →
        (∀ r ∈ data, r.hasKey k = false) →
        displayTable records sel sf true = TableOutcome.exc) ∧
    (∀ (records : List Raw) (sel sf cols : List String) (rows : List Raw)
        (cols' : List String) (rows' : List Raw),
        displayTable records sel sf true = TableOutcome.view cols rows →
        displayTable records sel sf false = TableOutcome.view cols' rows' →
        (∀ r ∈ records, ∀ p ∈ r, p.1 ∈ columnMapping.map Prod.fst) →
        ∀ c ∈ cols, c ∈ cols') := by
  have hrn : ∀ p ∈ columnMapping, renameCol p.1 = p.2 := by decide
  have hinj : ∀ k1 ∈ columnMapping.map Prod.fst, ∀ k2 ∈ columnMapping.map Prod.fst,
      renameCol k1 = renameCol k2 → k1 = k2 := by decide
  have hmap6 : simplifiedColumns = simplifiedSources.map renameCol := by decide
  have hsub6 : ∀ k ∈ simplifiedSources, k ∈ columnMapping.map Prod.fst := by decide
  refine ⟨?_, ?_, ?_⟩
  · intro records sel sf cols rows h
    obtain ⟨data, hdata, -, -, hmode⟩ := displayTable_view h
    rcases hmode with ⟨hsim, -, -⟩ | ⟨-, hcols⟩
    · cases hsim
    · refine ⟨data, hdata, fun c => ?_⟩
      rw [hcols]
      constructor
      · intro hc
        obtain ⟨k, hk, hkc⟩ := List.mem_map.1 hc
        obtain ⟨hkm, hany⟩ := existingColumns_mem.1 hk
        obtain ⟨p, hp, hpk⟩ := List.mem_map.1 hkm
        refine ⟨p, hp, ?_, by rw [hpk]; exact hany⟩
        rw [← hkc, ← hpk, hrn p hp]
      · rintro ⟨p, hp, hpc, hany⟩
        refine List.mem_map.2 ⟨p.1, existingColumns_mem.2
          ⟨List.mem_map.2 ⟨p, hp, rfl⟩, hany⟩, ?_⟩
        rw [hrn p hp, hpc]
  · intro records sel sf data k hdata hne hene hschema hksrc hkabs
    have hde : data.isEmpty = false := by
      cases data with
      | nil => exact absurd rfl hne
      | cons a as => rfl
    have hee : (existingColumns data).isEmpty = false := by
      cases hEx : existingColumns data with
      | nil => exact absurd hEx hene
      | cons a as => rfl
    have hnotmem : renameCol k ∉ renamedColumns data := by
      intro hmem
      obtain ⟨ck, hckex, hck⟩ := renamedColumns_char hschema hmem
      have hckm : ck ∈ columnMapping.map Prod.fst := (existingColumns_mem.1 hckex).1
      have hkk : ck = k := hinj ck hckm k (hsub6 k hksrc) hck
      obtain ⟨-, hany⟩ := existingColumns_mem.1 hckex
      obtain ⟨r, hr, hkey⟩ := List.any_eq_true.1 hany
      rw [hkk] at hkey
      rw [hkabs r hr] at hkey
      cases hkey
    have hallf : simplifiedColumns.all (fun c => (renamedColumns data).contains c) = false := by
      rw [List.all_eq_false]
      refine ⟨renameCol k, ?_, ?_⟩
      · rw [hmap6]
        exact List.mem_map.2 ⟨k, hksrc, rfl⟩
      · simpa using hnotmem
    simp only [displayTable, hdata, hde, hee, hallf]
    simp
  · intro records sel sf cols rows cols' rows' hsimp hfull hschema c hc
    obtain ⟨data, hdata, -, -, hmode⟩ := displayTable_view hsimp
    obtain ⟨data', hdata', -, -, hmode'⟩ := displayTable_view hfull
    have hdd : data' = data := by
      rw [hdata] at hdata'
      exact (Option.some.inj hdata').symm
    rw [hdd] at hmode'
    rcases hmode with ⟨-, hcols, hall⟩ | ⟨hf, -⟩
    · rcases hmode' with ⟨ht, -, -⟩ | ⟨-, hcols'⟩
      · cases ht
      · have hschemad : ∀ r ∈ data, ∀ p ∈ r, p.1 ∈ columnMapping.map Prod.fst := by
          intro r hr
          obtain ⟨-, hdataf⟩ := filterExc_eq_some hdata
          rw [hdataf] at hr
          exact hschema r (List.mem_filter.1 hr).1
        rw [hcols] at hc
        have hcontains := List.all_eq_true.1 hall c hc
        have hcmem : c ∈ renamedColumns data := by simpa using hcontains
        obtain ⟨k, hkex, hkc⟩ := renamedColumns_char hschemad hcmem
        rw [hcols']
        exact List.mem_map.2 ⟨k, hkex, hkc⟩
    · cases hf

/-- A Robin record carrying all six simplified source fields. -/
def fullRobin : Raw :=
  [("comName", Val.str "Robin"), ("sciName", Val.str "Turdus migratorius"),
   ("locName", Val.str "Central Park"), ("howMany", Val.int 2),
   ("lat", Val.int 40), ("lng", Val.int (-74))]

/-- Witness for the C5 amended theorem: full mode on the sparse Robin
record yields exactly the three present renamed columns, simplified
mode on it raises, and on a record with all six source fields the
simplified columns embed into the full ones. -/
theorem table_projection_amended_witness :
    (∃ data, filterExc (comNameIn ["Robin"]) [robinMay1] = some data ∧
        ∀ c, c ∈ ["Common Name", "Date Observed", "Population"] ↔
          ∃ p ∈ columnMapping, p.2 = c ∧ data.any (fun r => r.hasKey p.1) = true) ∧
    displayTable [robinMay1] ["Robin"] [] true = TableOutcome.exc ∧
    (∀ c ∈ simplifiedColumns,
      c ∈ ["Common Name", "Scientific Name", "Location Observed", "Population",
            "Latitude", "Longitude"]) :=
  ⟨table_projection_amended.1 [robinMay1] ["Robin"] []
      ["Common Name", "Date Observed", "Population"] [robinMay1] (by decide),
   table_projection_amended.2.1 [robinMay1] ["Robin"] [] [robinMay1] "sciName"
      (by decide) (by decide) (by decide) (by decide) (by decide) (by decide),
   table_projection_amended.2.2 [fullRobin] ["Robin"] [] simplifiedColumns [fullRobin]
      ["Common Name", "Scientific Name", "Location Observed", "Population",
        "Latitude", "Longitude"] [fullRobin]
      (by decide) (by decide) (by decide)⟩

/-- C8 counterexample: the exported CSV's header row consists of the
raw field names (`comName`, `obsDt`, `howMany`), not the renamed
display names — `main.py`'s table tab never applies the rename map. -/
theorem csv_header_counterexample :
    (toCsvLines (dfColumns [robinMay1]) [robinMay1]).head? = some "comName,obsDt,howMany" ∧
    displayHeader [robinMay1] = "Common Name,Date Observed,Population" ∧
    ("comName,obsDt,howMany" : String) ≠ "Common Name,Date Observed,Population" := by
  exact ⟨by decide, by decide, by decide⟩

/-- C8 amended: the exported artifact is the UTF-8 encoding of a text
whose header row holds the frame's raw column names (each one a key
present in some fetched record), followed by exactly one data row per
record of the filtered view, in order, and no trailing summary row —
but the header names are the raw keys, not the display names. -/
theorem csv_export_amended (records filteredRows : List Raw) :
    csvExport records filteredRows = (convert_to_csv records filteredRows).toUTF8 ∧
    (toCsvLines (dfColumns records) filteredRows).length = filteredRows.length + 1 ∧
    (toCsvLines (dfColumns records) filteredRows).head? =
      some (String.intercalate "," (dfColumns records)) ∧
    (∀ c ∈ dfColumns records, ∃ r ∈ records, r.hasKey c = true) ∧
    (toCsvLines (dfColumns records) filteredRows).tail =
      filteredRows.map (fun r =>
        String.intercalate "," ((dfColumns records).map (fun c => cellStr (r.get c)))) := by
  exact ⟨rfl, by simp [toCsvLines], by simp [toCsvLines],
    fun c hc => dfColumns_mem.1 hc, by simp [toCsvLines]⟩

/-- Witness for the C8 amended theorem: the header entry `comName` of
the one-Robin frame is a key of the fetched record. -/
theorem csv_export_amended_witness :
    ∃ r ∈ ([robinMay1] : List Raw), r.hasKey "comName" = true :=
  (csv_export_amended [robinMay1] [robinMay1]).2.2.2.1 "comName" (by decide)

end Bird
